import Mathlib

/-!
Verification of `statsmodels/survey/summary_stats.py`.

This file gives a shallow embedding of the survey summary-statistics module
(SurveyDesign, the replicate-weight generators, the jackknife variance
engine and the weighted statistic functions) and proves properties of the
embedded code.  Real-valued numpy arrays are modelled as `List ℚ`; numpy
square roots, which only enter after the covariance assembly, are
abstracted by an explicit function parameter.  Python exceptions are
modelled with `Except String`.
-/

/-- Maximum of a list of naturals, `0` for the empty list.
Models the Python builtin `max` over an integer array (which is only
reached on nonempty arrays; emptiness is checked at the call sites). -/
def listMax (xs : List Nat) : Nat := xs.foldr max 0

/-- Length that `np.bincount` gives its result: one more than the largest
value occurring, `0` for the empty list. -/
def listBound (xs : List Nat) : Nat := xs.foldr (fun a b => max (a + 1) b) 0

/-- Index of the first occurrence of `v`, `length` if absent.
Models `np.ndarray` index lookup used through `np.unique`. -/
def npIndexOf {α : Type} [DecidableEq α] (v : α) : List α → Nat
  | [] => 0
  | x :: xs => if x = v then 0 else npIndexOf v xs + 1

/-- Insert a value into a sorted duplicate-free list, keeping it sorted and
duplicate-free. -/
def insertUnique {α : Type} [LinearOrder α] (x : α) : List α → List α
  | [] => [x]
  | y :: ys => if x < y then x :: y :: ys else if x = y then y :: ys else y :: insertUnique x ys

/-- The sorted list of distinct values of `xs`: the first return value of
`np.unique`. -/
def sortedUnique {α : Type} [LinearOrder α] (xs : List α) : List α :=
  xs.foldr insertUnique []

/-- The `return_inverse` output of `np.unique(xs, return_inverse=True)`:
each element replaced by its rank among the distinct sorted values. -/
def npInverse {α : Type} [LinearOrder α] (xs : List α) : List Nat :=
  xs.map (fun x => npIndexOf x (sortedUnique xs))

/-- The `return_index` output of `np.unique(xs, return_index=True)`: for each
distinct value in sorted order, the index of its first occurrence. -/
def npReturnIndex {α : Type} [LinearOrder α] (xs : List α) : List Nat :=
  (sortedUnique xs).map (fun v => npIndexOf v xs)

/-- `np.bincount(ys)`: occurrence counts of `0, 1, ..., max ys`. -/
def npBincount (ys : List Nat) : List Nat :=
  (List.range (listBound ys)).map (fun v => ys.count v)

/-- `np.cumsum(ws)`. -/
def npCumsum (ws : List ℚ) : List ℚ :=
  (List.scanl (fun a b => a + b) 0 ws).tail

/-- Insert into a sorted list keeping duplicates. -/
def insertLe (x : ℚ) : List ℚ → List ℚ
  | [] => [x]
  | y :: ys => if x ≤ y then x :: y :: ys else y :: insertLe x ys

/-- `np.sort`. -/
def npSort (xs : List ℚ) : List ℚ := xs.foldr insertLe []

/-- `np.searchsorted(a, v)` with the default side `left`: the least index
`i` with `v ≤ a i`, and `a.length` if there is none (for `a` sorted). -/
def searchsorted (a : List ℚ) (v : ℚ) : Nat :=
  match a with
  | [] => 0
  | x :: xs => if v ≤ x then 0 else searchsorted xs v + 1

/-- `np.dot(w, data)` for a weight vector of length n and an n-by-p data
matrix (a list of rows): the vector of weighted column sums. -/
def npDotVM (w : List ℚ) (data : List (List ℚ)) : List ℚ :=
  (List.range (data.headD []).length).map
    (fun j => (List.zipWith (fun wi row => wi * row.getD j 0) w data).sum)

/-- Whether an `Except` value is a success. -/
def exceptOk {α : Type} (x : Except String α) : Bool :=
  match x with
  | Except.ok _ => true
  | Except.error _ => false

/-- The design object built by `SurveyDesign.__init__` (lines 62-118 of
`summary_stats.py`).  When `rep_weights` is supplied the strata bookkeeping
fields are never constructed in the source; they keep their listed defaults
here. -/
structure SurveyDesign where
  cov_method : String
  rep_weights : Option (List (List ℚ))
  weights : List ℚ
  strat : List Nat := []
  sclust : List Nat := []
  nstrat : Nat := 0
  clust_per_strat : List Nat := []
  strat_for_clust : List Nat := []
  fpc : List ℚ := []
  nclust : Nat := 0
  ii : List (List Nat) := []
  deriving DecidableEq, Repr

/-- The list `v` of `_check_args` (line 162): the lengths of the supplied
arrays among strata, cluster and weights. -/
def presentLens (strata cluster weights : Option (List ℚ)) : List Nat :=
  ([strata, cluster, weights].filterMap id).map List.length

/-- The common length `n = v[0]` of `_check_args` (line 166). -/
def commonLen (strata cluster weights : Option (List ℚ)) : Nat :=
  (presentLens strata cluster weights).headD 0

/-- `SurveyDesign._check_args` (lines 132-179): reject the all-absent and
unequal-length configurations, then replace absent arrays by ones and an
absent fpc by zeros. -/
def check_args (strata cluster weights fpc : Option (List ℚ)) :
    Except String (List ℚ × List ℚ × List ℚ × List ℚ) :=
  if strata = none ∧ cluster = none ∧ weights = none then
    Except.error "At least one of strata, cluster, rep_weights, and weights musts not be None"
  else if (presentLens strata cluster weights).dedup.length ≠ 1 then
    Except.error "lengths of strata, cluster, and weights are not compatible"
  else
    Except.ok (strata.getD (List.replicate (commonLen strata cluster weights) 1),
      cluster.getD (List.replicate (commonLen strata cluster weights) 1),
      weights.getD (List.replicate (commonLen strata cluster weights) 1),
      fpc.getD (List.replicate (commonLen strata cluster weights) 0))

/-- The relabeled cluster array `sclust` (lines 95-100): with `nest` the raw
cluster codes are first combined with the stratum codes so that equal raw
ids in different strata become distinct clusters. -/
def sclustOf (st cl : List ℚ) (nest : Bool) : List Nat :=
  let strat := npInverse st
  let clust := npInverse cl
  if nest then
    npInverse (List.zipWith (fun c s => c + (listMax clust + 1) * s) clust strat)
  else clust

/-- The first-occurrence indices of the clusters (line 103):
`_, ii = np.unique(self.sclust, return_index=True)`. -/
def iiIdxOf (st cl : List ℚ) (nest : Bool) : List Nat :=
  npReturnIndex (sclustOf st cl nest)

/-- The stratum of each cluster (line 107): `strat_for_clust = strat[ii]`. -/
def sfcOf (st cl : List ℚ) (nest : Bool) : List Nat :=
  (iiIdxOf st cl nest).map (fun i => (npInverse st).getD i 0)

/-- The post-validation part of `SurveyDesign.__init__` (lines 85-118),
computing the relabeled arrays and the per-stratum cluster bookkeeping. -/
def buildDesign (st cl w f : List ℚ) (cm : String) (nest : Bool) : SurveyDesign :=
  let strat := npInverse st
  let sfc := sfcOf st cl nest
  { cov_method := cm
    rep_weights := none
    weights := w
    strat := strat
    sclust := sclustOf st cl nest
    nstrat := listMax strat + 1
    clust_per_strat := npBincount sfc
    strat_for_clust := sfc
    fpc := (iiIdxOf st cl nest).map (fun i => f.getD i 0)
    nclust := (npBincount sfc).sum
    ii := (List.range (listMax strat + 1)).map
      (fun s => (List.range sfc.length).filter (fun j => sfc.getD j 0 = s)) }

/-- The part of `SurveyDesign.__init__` after `_check_args` returns.  The
two failure modes beyond the explicit `raise` statements are modelled after
the Python runtime: `max(self.strat)` on line 90 raises on an empty array,
and the fancy indexing `self.fpc[ii]` on line 110 raises when some
first-occurrence index falls outside the supplied fpc array. -/
def mkDesignPost (st cl w f : List ℚ) (cm : String) (nest : Bool) :
    Except String SurveyDesign :=
  if (npInverse st).isEmpty then
    Except.error "ValueError: max arg is an empty sequence"
  else if ((iiIdxOf st cl nest).all (fun i => decide (i < f.length))) = false then
    Except.error "IndexError: fpc index out of bounds"
  else
    Except.ok (buildDesign st cl w f cm nest)

/-- `SurveyDesign.__init__` (lines 62-118) as a fallible constructor:
method validation, the `rep_weights` branch (which skips all strata
bookkeeping), and otherwise `_check_args` followed by the bookkeeping
construction. -/
def mkDesign (strata cluster weights : Option (List ℚ)) (rep_weights : Option (List (List ℚ)))
    (fpc : Option (List ℚ)) (cm : String) (nest : Bool) : Except String SurveyDesign :=
  if cm ∉ (["boot", "mean_boot", "jack"] : List String) then
    Except.error "Method not supported"
  else
    match rep_weights with
    | some rws =>
      if strata.isSome ∨ cluster.isSome then
        Except.error "If providing rep_weights, do not provide cluster or strata"
      else
        Except.ok { cov_method := cm, rep_weights := some rws,
                    weights := weights.getD (List.replicate rws.length 1) }
    | none =>
      check_args strata cluster weights fpc >>= fun q =>
        mkDesignPost q.1 q.2.1 q.2.2.1 q.2.2.2 cm nest

/-- `SurveyDesign._jackknife_rep_weights` (lines 213-236): zero out the
weights of cluster `c` and scale the rest of its stratum by `nh/(nh-1)`.
The source first scales the whole stratum and then zeroes the cluster; the
single pass below assigns each observation the value those two mask
assignments leave it with. -/
def jackknife_rep_weights (d : SurveyDesign) (c : Nat) : List ℚ :=
  let s := d.strat_for_clust.getD c 0
  let nh : ℚ := (d.clust_per_strat.getD s 0 : Nat)
  (List.range d.weights.length).map (fun i =>
    if d.sclust.getD i 0 = c then 0
    else if d.strat.getD i 0 = s then d.weights.getD i 0 * (nh / (nh - 1))
    else d.weights.getD i 0)

/-- `SurveyDesign.get_rep_weights` (lines 181-211) on its deterministic
branches: externally supplied replicate weights are returned column-wise,
the jackknife generator is dispatched for `cov_method = "jack"`.  The two
bootstrap branches draw from `np.random` and are not part of this
deterministic embedding (`none`); the mean-bootstrap branch is modelled
separately and raises before drawing. -/
def get_rep_weights (d : SurveyDesign) (c : Nat) : Option (List ℚ) :=
  match d.rep_weights with
  | some rws => some (rws.map (fun row => row.getD c 0))
  | none => if d.cov_method = "jack" then some (jackknife_rep_weights d c) else none

/-- `SurveyDesign._mean_bootstrap_weight` (lines 266-298).  Its first
statement reads `self.design.nclust`, but `self` is the SurveyDesign itself
and SurveyDesign objects have no attribute named `design` (only SurveyStat
instances carry one), so every call raises AttributeError before any weight
computation or random draw happens. -/
def mean_bootstrap_weight (_d : SurveyDesign) (_bsn : Nat) : Except String (List ℚ) :=
  Except.error "AttributeError: SurveyDesign object has no attribute design"

/-- `SurveyMean._stat` (lines 464-481): weighted column means
`np.dot(weights, data) / np.sum(weights)`. -/
def surveyMeanStat (w : List ℚ) (data : List (List ℚ)) : List ℚ :=
  (npDotVM w data).map (fun x => x / w.sum)

/-- `SurveyTotal._stat` (lines 521-537): weighted column sums. -/
def surveyTotalStat (w : List ℚ) (data : List (List ℚ)) : List ℚ :=
  npDotVM w data

/-- The body of the per-level loop of `SurveyQuantile._stat`
(lines 601-611): endpoint policy, tie policy, and the general case. -/
def quantileOne (n_cw : Nat) (cw sd : List ℚ) (pos : Nat) (qi : ℚ) : ℚ :=
  if pos = n_cw - 1 ∨ pos = n_cw then sd.getD (sd.length - 1) 0
  else if cw.getD pos 0 = qi then (sd.getD pos 0 + sd.getD (pos + 1) 0) / 2
  else sd.getD pos 0

/-- `SurveyQuantile._stat` (lines 593-611) on one data column: cumulative
weights, sorted data, targets `q = quantile * cw[-1]`, binary search, and
the per-level selection loop. -/
def quantileStat (n_cw : Nat) (quantile ws xs : List ℚ) : List ℚ :=
  let cw := npCumsum ws
  let sd := npSort xs
  let q := quantile.map (fun lvl => lvl * cw.getD (cw.length - 1) 0)
  (List.zip (q.map (fun t => searchsorted cw t)) q).map
    (fun p => quantileOne n_cw cw sd p.1 p.2)

/-- The minimum of a numpy array as computed by `.min()` (raises on an
empty array; the empty case is separated at the call site). -/
def listMinQ (xs : List ℚ) : ℚ :=
  match xs with
  | [] => 0
  | x :: t => t.foldl min x

/-- The quantile-level validation of `SurveyQuantile.__init__`
(lines 577-579): `if (self.quantile.min() < 0 or self.quantile.max > 1)`.
In the source `self.quantile.max` is an unevaluated bound-method object, so
whenever the right operand of `or` is reached (that is, whenever the
minimum is not negative) Python raises TypeError for the comparison of a
method with an int; a negative minimum short-circuits into the intended
ValueError, and `.min()` of an empty array raises ValueError itself. -/
def surveyQuantileInitCheck (quantile : List ℚ) : Except String Unit :=
  if quantile = [] then
    Except.error "ValueError: zero-size array to reduction operation minimum"
  else if listMinQ quantile < 0 then
    Except.error "ValueError: quantile should be within 0 and 1"
  else
    Except.error "TypeError: unsupported comparison between method and int"

/-- Columnwise mean of a list of rows, `rows.mean(0)`: the number of
columns is taken from the first row (all rows have equal length in every
use site). -/
def rowMean (rows : List (List ℚ)) : List ℚ :=
  (List.range (rows.headD []).length).map
    (fun j => (rows.map (fun r => r.getD j 0)).sum / (rows.length : ℚ))

/-- One iteration of the stratum-centering loop of `SurveyStat._jackknife`
(lines 400-403): `jdata[ii[s], :] -= jdata[ii[s], :].mean(0)` for the index
set `idxs = ii[s]`. -/
def centerStep (jd : List (List ℚ)) (idxs : List Nat) : List (List ℚ) :=
  let m := rowMean (idxs.map (fun j => jd.getD j []))
  (List.range jd.length).map (fun j =>
    if j ∈ idxs then List.zipWith (fun a b => a - b) (jd.getD j []) m else jd.getD j [])

/-- The full stratum-centering loop of `SurveyStat._jackknife`: the strata
are processed in order `s = 0, 1, ...` over the per-stratum cluster index
sets `ii`. -/
def centerStrata (ii : List (List Nat)) (jd : List (List ℚ)) : List (List ℚ) :=
  ii.foldl centerStep jd

/-- The replicate-statistic matrix of `SurveyStat._jackknife`
(lines 384-394) in the no-`rep_weights` case: one row per cluster,
each the statistic evaluated under that cluster's delete-1 weights. -/
def jackknifeJdataRaw (d : SurveyDesign) (stat : List ℚ → List ℚ) : List (List ℚ) :=
  (List.range d.nclust).map (fun c => stat (jackknife_rep_weights d c))

/-- The centering step of `SurveyStat._jackknife` (lines 395-405): in `mse`
mode the point estimate is subtracted from every row; otherwise, without
externally supplied replicate weights, each stratum's rows are centered at
their own stratum mean, and with supplied replicate weights at the global
mean. -/
def jackknifeCenter (d : SurveyDesign) (jdata : List (List ℚ)) (est : List ℚ) (mse : Bool) :
    List (List ℚ) :=
  if mse then jdata.map (fun row => List.zipWith (fun a b => a - b) row est)
  else
    match d.rep_weights with
    | none => centerStrata d.ii jdata
    | some _ => jdata.map (fun row => List.zipWith (fun a b => a - b) row (rowMean jdata))

/-- The pseudo-value expression of `SurveyStat._jackknife` (lines 409-411):
`_pseudo = jdata + nh[:, None] * (np.dot(weights, data) - jdata)`, where
`jdata` is the already centered replicate matrix and `nh` is each
cluster's stratum cluster count.  In the source this value is bound to the
local variable `_pseudo` and then discarded. -/
def jackknifePseudo (d : SurveyDesign) (jdata : List (List ℚ)) (data : List (List ℚ)) :
    List (List ℚ) :=
  let tot := npDotVM d.weights data
  (List.range jdata.length).map (fun c =>
    let nh : ℚ := (d.clust_per_strat.getD (d.strat_for_clust.getD c 0) 0 : Nat)
    List.zipWith (fun jv t => jv + nh * (t - jv)) (jdata.getD c []) tot)

/-- Gram matrix `m.T @ m` of a k-by-p matrix: the p-by-p matrix of column
inner products (line 419). -/
def gram (m : List (List ℚ)) : List (List ℚ) :=
  (List.range (m.headD []).length).map (fun a =>
    (List.range (m.headD []).length).map (fun b =>
      (m.map (fun row => row.getD a 0 * row.getD b 0)).sum))

/-- Diagonal of a square matrix. -/
def diag (m : List (List ℚ)) : List ℚ :=
  (List.range m.length).map (fun i => (m.getD i []).getD i 0)

/-- `SurveyStat._jackknife` (lines 362-424) on the no-`rep_weights` path,
parametrised by the statistic function and by `rt`, which stands for
`np.sqrt` (the square root only enters through the row scaling
`sqrt(1 - fpc) * sqrt((nh-1)/nh)` and the final `stderr`).  The pseudo
values are computed and, as in the source, discarded.  Returns the triple
`(est, vcov, stderr)` that the source returns. -/
def jackknifeRun (rt : ℚ → ℚ) (d : SurveyDesign) (stat : List ℚ → List ℚ)
    (data : List (List ℚ)) (mse : Bool) : List ℚ × List (List ℚ) × List ℚ :=
  let est := stat d.weights
  let jdata := jackknifeCenter d (jackknifeJdataRaw d stat) est mse
  let _pseudo := jackknifePseudo d jdata data
  let scaled := (List.range jdata.length).map (fun c =>
    let nh : ℚ := (d.clust_per_strat.getD (d.strat_for_clust.getD c 0) 0 : Nat)
    (jdata.getD c []).map (fun x => rt (1 - d.fpc.getD c 0) * rt ((nh - 1) / nh) * x))
  let vcov := gram scaled
  (est, vcov, (diag vcov).map rt)

/-- The `data` argument of the statistic classes: either a length-n vector
or an n-by-p matrix. -/
inductive DataInput where
  | one (xs : List ℚ)
  | two (m : List (List ℚ))
  deriving DecidableEq

/-- The reshape at the top of `SurveyMean.__init__` / `SurveyTotal.__init__`
(lines 455-458 and 512-515): a 1-d array is reshaped to a single-column
matrix, a 2-d array is taken as is. -/
def normalizeData (data : DataInput) : List (List ℚ) :=
  match data with
  | DataInput.one xs => xs.map (fun x => [x])
  | DataInput.two m => m

/-- `SurveyMean.__init__` (lines 453-462) on the jackknife path: reshape
the data, then run the jackknife engine with the weighted-mean statistic,
yielding `(est, vcov, stderr)`. -/
def surveyMean (rt : ℚ → ℚ) (d : SurveyDesign) (data : DataInput) (mse : Bool) :
    List ℚ × List (List ℚ) × List ℚ :=
  let dm := normalizeData data
  jackknifeRun rt d (fun w => surveyMeanStat w dm) dm mse

/-- `SurveyTotal.__init__` (lines 510-519) on the jackknife path. -/
def surveyTotal (rt : ℚ → ℚ) (d : SurveyDesign) (data : DataInput) (mse : Bool) :
    List ℚ × List (List ℚ) × List ℚ :=
  let dm := normalizeData data
  jackknifeRun rt d (fun w => surveyTotalStat w dm) dm mse

/-- The design built from strata `[0,0,1,1]`, clusters `[0,1,2,3]` and unit
weights with `cov_method = "jack"` (the concrete scenario of the spec). -/
def jackDesignEx : SurveyDesign :=
  { cov_method := "jack", rep_weights := none, weights := [1, 1, 1, 1],
    strat := [0, 0, 1, 1], sclust := [0, 1, 2, 3], nstrat := 2,
    clust_per_strat := [2, 2], strat_for_clust := [0, 0, 1, 1],
    fpc := [0, 0, 0, 0], nclust := 4, ii := [[0, 1], [2, 3]] }

/-- The design built from strata `[0,0]`, clusters `[0,1]` and unit
weights with `cov_method = "jack"`. -/
def pairDesignEx : SurveyDesign :=
  { cov_method := "jack", rep_weights := none, weights := [1, 1],
    strat := [0, 0], sclust := [0, 1], nstrat := 1,
    clust_per_strat := [2], strat_for_clust := [0, 0],
    fpc := [0, 0], nclust := 2, ii := [[0, 1]] }

/-- `pairDesignEx` with the mean-bootstrap covariance method. -/
def meanBootDesignEx : SurveyDesign :=
  { pairDesignEx with cov_method := "mean_boot" }

theorem le_listMax {x : Nat} {xs : List Nat} (h : x ∈ xs) : x ≤ listMax xs := by
  induction xs with
  | nil => cases h
  | cons y ys ih =>
    rcases List.mem_cons.mp h with rfl | h2
    · exact le_max_left _ _
    · exact le_trans (ih h2) (le_max_right _ _)

theorem lt_listBound {x : Nat} {xs : List Nat} (h : x ∈ xs) : x < listBound xs := by
  induction xs with
  | nil => cases h
  | cons y ys ih =>
    rcases List.mem_cons.mp h with rfl | h2
    · exact lt_of_lt_of_le (Nat.lt_succ_self x) (le_max_left _ _)
    · exact lt_of_lt_of_le (ih h2) (le_max_right _ _)

theorem npIndexOf_lt_length {α : Type} [DecidableEq α] {v : α} {xs : List α} (h : v ∈ xs) :
    npIndexOf v xs < xs.length := by
  induction xs with
  | nil => cases h
  | cons y ys ih =>
    by_cases hy : y = v
    · simp [npIndexOf, hy]
    · rcases List.mem_cons.mp h with rfl | h2
      · exact absurd rfl hy
      · simpa [npIndexOf, hy] using ih h2

theorem mem_insertUnique {α : Type} [LinearOrder α] {x y : α} {l : List α} :
    y ∈ insertUnique x l ↔ y = x ∨ y ∈ l := by
  induction l with
  | nil => simp [insertUnique]
  | cons z zs ih =>
    by_cases h1 : x < z
    · simp [insertUnique, h1]
    · by_cases h2 : x = z
      · subst h2
        simp only [insertUnique, if_neg h1, if_pos rfl]
        constructor
        · intro h; exact Or.inr h
        · rintro (rfl | h) <;> simp_all
      · simp only [insertUnique, if_neg h1, if_neg h2, List.mem_cons, ih]
        tauto

theorem mem_sortedUnique {α : Type} [LinearOrder α] {x : α} {xs : List α} :
    x ∈ sortedUnique xs ↔ x ∈ xs := by
  induction xs with
  | nil => simp [sortedUnique]
  | cons y ys ih =>
    show x ∈ insertUnique y (sortedUnique ys) ↔ _
    rw [mem_insertUnique, ih]
    simp

theorem getD_mem {α : Type} {l : List α} {i : Nat} {d : α} (h : i < l.length) :
    l.getD i d ∈ l := by
  rw [List.getD_eq_getElem _ _ h]
  exact List.getElem_mem h

theorem getD_map_range {α : Type} {n : Nat} (f : Nat → α) (d : α) {i : Nat} (h : i < n) :
    ((List.range n).map f).getD i d = f i := by
  rw [List.getD_eq_getElem _ _ (by simpa using h), List.getElem_map, List.getElem_range]

theorem getD_map {α β : Type} (f : α → β) {l : List α} (d : β) (d' : α) {i : Nat}
    (h : i < l.length) : (l.map f).getD i d = f (l.getD i d') := by
  rw [List.getD_eq_getElem _ _ (by simpa using h), List.getElem_map,
    List.getD_eq_getElem _ _ h]

theorem mem_npReturnIndex_lt {α : Type} [LinearOrder α] {j : Nat} {xs : List α}
    (h : j ∈ npReturnIndex xs) : j < xs.length := by
  rcases List.mem_map.mp h with ⟨v, hv, rfl⟩
  exact npIndexOf_lt_length (mem_sortedUnique.mp hv)

theorem sum_map_add {α : Type} (l : List α) (f g : α → Nat) :
    (l.map (fun x => f x + g x)).sum = (l.map f).sum + (l.map g).sum := by
  induction l with
  | nil => simp
  | cons y ys ih => simp [ih]; omega

theorem sum_range_indicator {y m : Nat} (h : y < m) :
    ((List.range m).map (fun v => if y = v then 1 else 0)).sum = 1 := by
  induction m with
  | zero => cases h
  | succ k ih =>
    rw [List.range_succ, List.map_append, List.sum_append]
    by_cases hk : y = k
    · subst hk
      have : ((List.range y).map (fun v => if y = v then 1 else 0)).sum = 0 := by
        apply List.sum_eq_zero
        intro x hx
        rcases List.mem_map.mp hx with ⟨v, hv, rfl⟩
        have : v < y := List.mem_range.mp hv
        simp [Nat.ne_of_gt this]
      simp [this]
    · have hy : y < k := lt_of_le_of_ne (Nat.lt_succ_iff.mp h) hk
      simp [ih hy, hk]

theorem count_sum_range {ys : List Nat} {m : Nat} (h : ∀ y ∈ ys, y < m) :
    ((List.range m).map (fun v => ys.count v)).sum = ys.length := by
  induction ys with
  | nil => simp
  | cons y t ih =>
    have hcount : ∀ v, (y :: t).count v = t.count v + if y = v then 1 else 0 := by
      intro v
      rw [List.count_cons]
      by_cases hv : y = v <;> simp [hv]
    have : ((List.range m).map (fun v => (y :: t).count v)).sum
        = ((List.range m).map (fun v => t.count v + if y = v then 1 else 0)).sum := by
      congr 1
      exact List.map_congr_left (fun v _ => hcount v)
    rw [this, sum_map_add, ih (fun z hz => h z (List.mem_cons_of_mem y hz)),
      sum_range_indicator (h y (List.mem_cons_self y t))]
    simp

theorem sum_npBincount (ys : List Nat) : (npBincount ys).sum = ys.length :=
  count_sum_range (fun _ hy => lt_listBound hy)

theorem length_npInverse {α : Type} [LinearOrder α] (xs : List α) :
    (npInverse xs).length = xs.length := by
  simp [npInverse]

theorem length_sclustOf {st cl : List ℚ} (hlen : st.length = cl.length) (nest : Bool) :
    (sclustOf st cl nest).length = st.length := by
  cases nest <;>
    simp [sclustOf, length_npInverse, List.length_zipWith, hlen]

theorem mem_iiIdxOf_lt {st cl : List ℚ} {j : Nat} (hlen : st.length = cl.length) {nest : Bool}
    (h : j ∈ iiIdxOf st cl nest) : j < st.length := by
  have := mem_npReturnIndex_lt h
  rwa [length_sclustOf hlen] at this

theorem length_sfcOf (st cl : List ℚ) (nest : Bool) :
    (sfcOf st cl nest).length = (iiIdxOf st cl nest).length := by
  simp [sfcOf]

theorem sfcOf_getD_mem {st cl : List ℚ} {nest : Bool} {j : Nat}
    (hlen : st.length = cl.length) (hj : j < (sfcOf st cl nest).length) :
    (sfcOf st cl nest).getD j 0 ∈ npInverse st := by
  rw [length_sfcOf] at hj
  rw [sfcOf, getD_map _ _ 0 hj]
  have hmem : (iiIdxOf st cl nest).getD j 0 ∈ iiIdxOf st cl nest := getD_mem hj
  have hlt : (iiIdxOf st cl nest).getD j 0 < (npInverse st).length := by
    rw [length_npInverse]
    exact mem_iiIdxOf_lt hlen hmem
  exact getD_mem hlt

theorem sfcOf_getD_lt {st cl : List ℚ} {nest : Bool} {j : Nat}
    (hlen : st.length = cl.length) (hj : j < (sfcOf st cl nest).length) :
    (sfcOf st cl nest).getD j 0 < listMax (npInverse st) + 1 :=
  Nat.lt_succ_of_le (le_listMax (sfcOf_getD_mem hlen hj))

theorem countP_range_getD {l : List Nat} {s : Nat} :
    ((List.range l.length).filter (fun j => l.getD j 0 = s)).length = l.count s := by
  induction l with
  | nil => simp
  | cons a t ih =>
    have hr : List.range (a :: t).length = 0 :: (List.range t.length).map Nat.succ := by
      simpa using List.range_succ_eq_map t.length
    have hcomp : ((fun j => decide (List.getD (a :: t) j 0 = s)) ∘ Nat.succ)
        = fun j => decide (t.getD j 0 = s) := by
      funext j
      simp [List.getD_cons_succ]
    rw [hr, List.filter_cons, List.filter_map, hcomp, List.count_cons]
    by_cases ha : a = s
    · simpa [ha] using ih
    · simpa [ha] using ih

theorem dedup_length_one {l : List Nat} (h : l.dedup.length = 1) : ∀ a ∈ l, a = l.headD 0 := by
  obtain ⟨x, hx⟩ := List.length_eq_one.mp h
  intro a ha
  have hax : a = x := by
    have := List.mem_dedup.mpr ha
    rw [hx] at this
    simpa using this
  cases l with
  | nil => cases ha
  | cons b t =>
    have hbx : b = x := by
      have := List.mem_dedup.mpr (List.mem_cons_self b t)
      rw [hx] at this
      simpa using this
    simp [hax, hbx]

theorem check_args_ok {strata cluster weights fpc : Option (List ℚ)}
    {st cl w f : List ℚ}
    (h : check_args strata cluster weights fpc = Except.ok (st, cl, w, f)) :
    ∃ n, st.length = n ∧ cl.length = n ∧ w.length = n ∧
      st = strata.getD (List.replicate n 1) ∧ cl = cluster.getD (List.replicate n 1) ∧
      w = weights.getD (List.replicate n 1) ∧ f = fpc.getD (List.replicate n 0) := by
  unfold check_args at h
  split at h
  · cases h
  split at h
  · cases h
  next hne hdedup =>
  refine ⟨commonLen strata cluster weights, ?_⟩
  have heq : ∀ a ∈ presentLens strata cluster weights, a = commonLen strata cluster weights :=
    fun a ha => dedup_length_one (by omega) a ha
  simp only [Except.ok.injEq, Prod.mk.injEq] at h
  obtain ⟨rfl, rfl, rfl, rfl⟩ := h
  refine ⟨?_, ?_, ?_, rfl, rfl, rfl, rfl⟩
  · cases hs : strata with
    | none => simp
    | some s =>
      have : s.length ∈ presentLens strata cluster weights := by
        refine List.mem_map.mpr ⟨s, ?_, rfl⟩
        refine List.mem_filterMap.mpr ⟨some s, ?_, rfl⟩
        simp [hs]
      simp [hs, heq _ this]
  · cases hs : cluster with
    | none => simp
    | some s =>
      have : s.length ∈ presentLens strata cluster weights := by
        refine List.mem_map.mpr ⟨s, ?_, rfl⟩
        refine List.mem_filterMap.mpr ⟨some s, ?_, rfl⟩
        simp [hs]
      simp [hs, heq _ this]
  · cases hs : weights with
    | none => simp
    | some s =>
      have : s.length ∈ presentLens strata cluster weights := by
        refine List.mem_map.mpr ⟨s, ?_, rfl⟩
        refine List.mem_filterMap.mpr ⟨some s, ?_, rfl⟩
        simp [hs]
      simp [hs, heq _ this]

theorem bd_weights {st cl w f : List ℚ} {cm : String} {nest : Bool} :
    (buildDesign st cl w f cm nest).weights = w := rfl

theorem bd_strat {st cl w f : List ℚ} {cm : String} {nest : Bool} :
    (buildDesign st cl w f cm nest).strat = npInverse st := rfl

theorem bd_sclust {st cl w f : List ℚ} {cm : String} {nest : Bool} :
    (buildDesign st cl w f cm nest).sclust = sclustOf st cl nest := rfl

theorem bd_nstrat {st cl w f : List ℚ} {cm : String} {nest : Bool} :
    (buildDesign st cl w f cm nest).nstrat = listMax (npInverse st) + 1 := rfl

theorem bd_cps {st cl w f : List ℚ} {cm : String} {nest : Bool} :
    (buildDesign st cl w f cm nest).clust_per_strat = npBincount (sfcOf st cl nest) := rfl

theorem bd_sfc {st cl w f : List ℚ} {cm : String} {nest : Bool} :
    (buildDesign st cl w f cm nest).strat_for_clust = sfcOf st cl nest := rfl

theorem bd_nclust {st cl w f : List ℚ} {cm : String} {nest : Bool} :
    (buildDesign st cl w f cm nest).nclust = (npBincount (sfcOf st cl nest)).sum := rfl

theorem bd_rep {st cl w f : List ℚ} {cm : String} {nest : Bool} :
    (buildDesign st cl w f cm nest).rep_weights = none := rfl

theorem bd_cov {st cl w f : List ℚ} {cm : String} {nest : Bool} :
    (buildDesign st cl w f cm nest).cov_method = cm := rfl

theorem bd_ii {st cl w f : List ℚ} {cm : String} {nest : Bool} :
    (buildDesign st cl w f cm nest).ii =
      (List.range (listMax (npInverse st) + 1)).map
        (fun s => (List.range (sfcOf st cl nest).length).filter
          (fun j => (sfcOf st cl nest).getD j 0 = s)) := rfl

theorem bd_nclust_len {st cl w f : List ℚ} {cm : String} {nest : Bool} :
    (buildDesign st cl w f cm nest).nclust = (sfcOf st cl nest).length := by
  rw [bd_nclust]; exact sum_npBincount _

theorem mem_bd_ii {st cl w f : List ℚ} {cm : String} {nest : Bool} {s j : Nat} :
    j ∈ (buildDesign st cl w f cm nest).ii.getD s [] ↔
      s < listMax (npInverse st) + 1 ∧ j < (sfcOf st cl nest).length ∧
        (sfcOf st cl nest).getD j 0 = s := by
  rw [bd_ii]
  by_cases hs : s < listMax (npInverse st) + 1
  · rw [getD_map_range _ _ hs]
    simp [List.mem_filter, List.mem_range, hs]
  · rw [List.getD_eq_default]
    · simp [hs]
    · simp
      omega

theorem except_bind_ok {α β : Type} (a : α) (g : α → Except String β) :
    (Except.ok a >>= g) = g a := rfl

theorem except_bind_err {α β : Type} (e : String) (g : α → Except String β) :
    ((Except.error e : Except String α) >>= g) = Except.error e := rfl

theorem mkDesign_none_eq {strata cluster weights fpc : Option (List ℚ)} {cm : String}
    {nest : Bool} (hcm : cm ∈ (["boot", "mean_boot", "jack"] : List String)) :
    mkDesign strata cluster weights none fpc cm nest =
      check_args strata cluster weights fpc >>= fun q =>
        mkDesignPost q.1 q.2.1 q.2.2.1 q.2.2.2 cm nest := by
  unfold mkDesign
  rw [if_neg (not_not_intro hcm)]

theorem mkDesign_ok_elim {strata cluster weights fpc : Option (List ℚ)} {cm : String}
    {nest : Bool} {d : SurveyDesign}
    (h : mkDesign strata cluster weights none fpc cm nest = Except.ok d) :
    ∃ st cl w f, check_args strata cluster weights fpc = Except.ok (st, cl, w, f) ∧
      st ≠ [] ∧ st.length = cl.length ∧
      ((iiIdxOf st cl nest).all (fun i => decide (i < f.length))) = true ∧
      d = buildDesign st cl w f cm nest := by
  by_cases hcm : cm ∈ (["boot", "mean_boot", "jack"] : List String)
  · rw [mkDesign_none_eq hcm] at h
    cases hca : check_args strata cluster weights fpc with
    | error e =>
      rw [hca, except_bind_err] at h
      cases h
    | ok q =>
      obtain ⟨st, cl, w, f⟩ := q
      rw [hca, except_bind_ok] at h
      unfold mkDesignPost at h
      split at h
      · cases h
      split at h
      · cases h
      next hempty hfpc =>
      injection h with h1
      refine ⟨st, cl, w, f, rfl, ?_, ?_, ?_, h1.symm⟩
      · intro hst
        subst hst
        simp [npInverse] at hempty
      · obtain ⟨n, ha, hb, -⟩ := check_args_ok hca
        omega
      · simpa using hfpc
  · exfalso
    unfold mkDesign at h
    rw [if_pos hcm] at h
    cases h

/-- C2: for every SurveyDesign successfully constructed from
strata/cluster/weights (no rep_weights), the bookkeeping satisfies
`sum(clust_per_strat) = nclust`, `strat_for_clust` assigns each cluster
index in `0..nclust-1` a stratum below `nstrat`, and the per-stratum index
sets `ii` form an exact partition of `0..nclust-1`: their union is all
clusters and they are pairwise disjoint. -/
theorem design_invariants
    (strata cluster weights fpc : Option (List ℚ)) (cm : String) (nest : Bool)
    (d : SurveyDesign)
    (hd : mkDesign strata cluster weights none fpc cm nest = Except.ok d) :
    d.clust_per_strat.sum = d.nclust ∧
    d.strat_for_clust.length = d.nclust ∧
    (∀ j, j < d.nclust → d.strat_for_clust.getD j 0 < d.nstrat) ∧
    d.ii.length = d.nstrat ∧
    (∀ j, j < d.nclust ↔ ∃ s, s < d.nstrat ∧ j ∈ d.ii.getD s []) ∧
    (∀ s1 s2, s1 < d.nstrat → s2 < d.nstrat → s1 ≠ s2 →
      ∀ j, j ∈ d.ii.getD s1 [] → j ∉ d.ii.getD s2 []) := by
  obtain ⟨st, cl, w, f, hca, hne, hlen, hall, rfl⟩ := mkDesign_ok_elim hd
  refine ⟨rfl, ?_, ?_, ?_, ?_, ?_⟩
  · rw [bd_sfc, bd_nclust_len]
  · intro j hj
    rw [bd_nclust_len] at hj
    rw [bd_sfc, bd_nstrat]
    exact sfcOf_getD_lt hlen hj
  · rw [bd_ii, bd_nstrat]
    simp
  · intro j
    constructor
    · intro hj
      rw [bd_nclust_len] at hj
      refine ⟨(sfcOf st cl nest).getD j 0, ?_, ?_⟩
      · rw [bd_nstrat]
        exact sfcOf_getD_lt hlen hj
      · exact mem_bd_ii.mpr ⟨sfcOf_getD_lt hlen hj, hj, rfl⟩
    · rintro ⟨s, hs, hmem⟩
      rw [bd_nclust_len]
      exact (mem_bd_ii.mp hmem).2.1
  · intro s1 s2 hs1 hs2 hne12 j hj1 hj2
    have h1 := (mem_bd_ii.mp hj1).2.2
    have h2 := (mem_bd_ii.mp hj2).2.2
    exact hne12 (h1 ▸ h2 ▸ rfl)

theorem design_invariants_witness :
    mkDesign (some [0,0,1,1]) (some [0,1,2,3]) (some [1,1,1,1]) none none "jack" true
      = Except.ok jackDesignEx ∧
    jackDesignEx.clust_per_strat.sum = jackDesignEx.nclust ∧
    jackDesignEx.strat_for_clust.length = jackDesignEx.nclust ∧
    (∀ j, j < jackDesignEx.nclust → jackDesignEx.strat_for_clust.getD j 0 < jackDesignEx.nstrat) ∧
    jackDesignEx.ii.length = jackDesignEx.nstrat ∧
    (∀ j, j < jackDesignEx.nclust ↔ ∃ s, s < jackDesignEx.nstrat ∧ j ∈ jackDesignEx.ii.getD s []) ∧
    (∀ s1 s2, s1 < jackDesignEx.nstrat → s2 < jackDesignEx.nstrat → s1 ≠ s2 →
      ∀ j, j ∈ jackDesignEx.ii.getD s1 [] → j ∉ jackDesignEx.ii.getD s2 []) :=
  ⟨rfl, design_invariants (some [0,0,1,1]) (some [0,1,2,3]) (some [1,1,1,1]) none "jack" true
    jackDesignEx rfl⟩

/-- C1: for every SurveyDesign built from strata/cluster/weights (no
rep_weights) with the jackknife method and every cluster `c` whose stratum
`s` holds `nh ≥ 2` clusters, `get_rep_weights` dispatches to the jackknife
generator, whose result has the same length as `weights`, is exactly `0`
at every observation of cluster `c`, equals the original weight times
`nh/(nh-1)` at every other observation of stratum `s`, and is unchanged
outside stratum `s`; moreover `nh` is exactly the number of clusters of
stratum `s`. -/
theorem jackknife_rep_weights_spec
    (strata cluster weights fpc : Option (List ℚ)) (nest : Bool) (d : SurveyDesign)
    (hd : mkDesign strata cluster weights none fpc "jack" nest = Except.ok d)
    (c : Nat) (hc : c < d.nclust)
    (hnh : 2 ≤ d.clust_per_strat.getD (d.strat_for_clust.getD c 0) 0) :
    get_rep_weights d c = some (jackknife_rep_weights d c) ∧
    (jackknife_rep_weights d c).length = d.weights.length ∧
    d.clust_per_strat.getD (d.strat_for_clust.getD c 0) 0 =
      (d.ii.getD (d.strat_for_clust.getD c 0) []).length ∧
    (∀ i, i < d.weights.length →
      (d.sclust.getD i 0 = c → (jackknife_rep_weights d c).getD i 0 = 0) ∧
      (d.sclust.getD i 0 ≠ c → d.strat.getD i 0 = d.strat_for_clust.getD c 0 →
        (jackknife_rep_weights d c).getD i 0 = d.weights.getD i 0 *
          ((d.clust_per_strat.getD (d.strat_for_clust.getD c 0) 0 : ℚ) /
            ((d.clust_per_strat.getD (d.strat_for_clust.getD c 0) 0 : ℚ) - 1))) ∧
      (d.sclust.getD i 0 ≠ c → d.strat.getD i 0 ≠ d.strat_for_clust.getD c 0 →
        (jackknife_rep_weights d c).getD i 0 = d.weights.getD i 0)) := by
  obtain ⟨st, cl, w, f, hca, hne, hlen, hall, rfl⟩ := mkDesign_ok_elim hd
  have hc' : c < (sfcOf st cl nest).length := by rwa [bd_nclust_len] at hc
  refine ⟨rfl, by simp [jackknife_rep_weights], ?_, ?_⟩
  · -- nh is the number of clusters of the stratum of c
    have hsmem : (sfcOf st cl nest).getD c 0 ∈ sfcOf st cl nest := getD_mem hc'
    have hsb : (sfcOf st cl nest).getD c 0 < listBound (sfcOf st cl nest) := lt_listBound hsmem
    rw [bd_cps, bd_sfc, bd_ii]
    rw [npBincount, getD_map_range _ _ hsb]
    rw [getD_map_range _ _ (sfcOf_getD_lt hlen hc')]
    exact countP_range_getD.symm
  · intro i hi
    rw [bd_weights] at hi
    have hbody : (jackknife_rep_weights (buildDesign st cl w f "jack" nest) c).getD i 0 =
        (if (buildDesign st cl w f "jack" nest).sclust.getD i 0 = c then 0
         else if (buildDesign st cl w f "jack" nest).strat.getD i 0 =
             (buildDesign st cl w f "jack" nest).strat_for_clust.getD c 0 then
           (buildDesign st cl w f "jack" nest).weights.getD i 0 *
             (((buildDesign st cl w f "jack" nest).clust_per_strat.getD
                 ((buildDesign st cl w f "jack" nest).strat_for_clust.getD c 0) 0 : Nat) /
               (((buildDesign st cl w f "jack" nest).clust_per_strat.getD
                 ((buildDesign st cl w f "jack" nest).strat_for_clust.getD c 0) 0 : Nat) - 1))
         else (buildDesign st cl w f "jack" nest).weights.getD i 0) := by
      simp only [jackknife_rep_weights]
      exact getD_map_range _ _ (by simpa [bd_weights] using hi)
    refine ⟨?_, ?_, ?_⟩
    · intro hcl
      rw [hbody, if_pos hcl]
    · intro hcl hstr
      rw [hbody, if_neg hcl, if_pos hstr]
    · intro hcl hstr
      rw [hbody, if_neg hcl, if_neg hstr]

theorem jackknife_rep_weights_witness :
    mkDesign (some [0,0,1,1]) (some [0,1,2,3]) (some [1,1,1,1]) none none "jack" true
      = Except.ok jackDesignEx ∧
    0 < jackDesignEx.nclust ∧
    2 ≤ jackDesignEx.clust_per_strat.getD (jackDesignEx.strat_for_clust.getD 0 0) 0 ∧
    get_rep_weights jackDesignEx 0 = some (jackknife_rep_weights jackDesignEx 0) ∧
    jackknife_rep_weights jackDesignEx 0 = [0, 2, 1, 1] :=
  ⟨rfl, by decide, by decide,
    (jackknife_rep_weights_spec (some [0,0,1,1]) (some [0,1,2,3]) (some [1,1,1,1]) none true
      jackDesignEx rfl 0 (by decide) (by decide)).1,
    by norm_num [jackknife_rep_weights, jackDesignEx, List.range_succ]⟩

theorem length_centerStep (jd : List (List ℚ)) (idxs : List Nat) :
    (centerStep jd idxs).length = jd.length := by
  simp [centerStep]

theorem centerStep_not_mem {jd : List (List ℚ)} {idxs : List Nat} {j : Nat}
    (hj : j < jd.length) (h : j ∉ idxs) :
    (centerStep jd idxs).getD j [] = jd.getD j [] := by
  simp only [centerStep]
  rw [getD_map_range _ _ hj, if_neg h]

theorem centerStep_mem {jd : List (List ℚ)} {idxs : List Nat} {j : Nat}
    (hj : j < jd.length) (h : j ∈ idxs) :
    (centerStep jd idxs).getD j [] =
      List.zipWith (fun a b => a - b) (jd.getD j [])
        (rowMean (idxs.map (fun i => jd.getD i []))) := by
  simp only [centerStep]
  rw [getD_map_range _ _ hj, if_pos h]

theorem length_centerStrata (iis : List (List Nat)) (jd : List (List ℚ)) :
    (centerStrata iis jd).length = jd.length := by
  induction iis generalizing jd with
  | nil => rfl
  | cons l rest ih =>
    show (centerStrata rest (centerStep jd l)).length = _
    rw [ih, length_centerStep]

theorem centerStrata_not_mem {iis : List (List Nat)} {jd : List (List ℚ)} {j : Nat}
    (hj : j < jd.length) (h : ∀ l ∈ iis, j ∉ l) :
    (centerStrata iis jd).getD j [] = jd.getD j [] := by
  induction iis generalizing jd with
  | nil => rfl
  | cons l rest ih =>
    show (centerStrata rest (centerStep jd l)).getD j [] = _
    rw [ih (by rw [length_centerStep]; exact hj)
        (fun l2 hl2 => h l2 (List.mem_cons_of_mem _ hl2)),
      centerStep_not_mem hj (h l (List.mem_cons_self _ _))]

theorem centerStrata_spec {iis : List (List Nat)} {jd : List (List ℚ)}
    (hdisj : iis.Pairwise (fun a b => ∀ x ∈ a, x ∉ b))
    (hsub : ∀ l ∈ iis, ∀ j ∈ l, j < jd.length)
    {k : Nat} (hk : k < iis.length) {c : Nat} (hc : c ∈ iis.getD k []) :
    (centerStrata iis jd).getD c [] =
      List.zipWith (fun a b => a - b) (jd.getD c [])
        (rowMean ((iis.getD k []).map (fun i => jd.getD i []))) := by
  induction iis generalizing jd k with
  | nil => cases hk
  | cons l rest ih =>
    have hhead := (List.pairwise_cons.mp hdisj).1
    have hdisj2 := (List.pairwise_cons.mp hdisj).2
    cases k with
    | zero =>
      have hcmem : c ∈ l := hc
      have hcl : c < jd.length := hsub l (List.mem_cons_self _ _) c hcmem
      have hnotin : ∀ l2 ∈ rest, c ∉ l2 := fun l2 hl2 => hhead l2 hl2 c hcmem
      show (centerStrata rest (centerStep jd l)).getD c [] = _
      rw [centerStrata_not_mem (by rw [length_centerStep]; exact hcl) hnotin,
        centerStep_mem hcl hcmem]
      rfl
    | succ k2 =>
      have hk2 : k2 < rest.length := by simpa using hk
      have hrmem : rest.getD k2 [] ∈ rest := getD_mem hk2
      have hcmem : c ∈ rest.getD k2 [] := hc
      have hcnl : c ∉ l := fun hcl => hhead _ hrmem c hcl hcmem
      have hsub2 : ∀ l2 ∈ rest, ∀ j ∈ l2, j < (centerStep jd l).length := by
        rw [length_centerStep]
        exact fun l2 hl2 => hsub l2 (List.mem_cons_of_mem _ hl2)
      show (centerStrata rest (centerStep jd l)).getD c [] = _
      rw [ih hdisj2 hsub2 hk2 hcmem]
      have hrows : (rest.getD k2 []).map (fun i => (centerStep jd l).getD i [])
          = (rest.getD k2 []).map (fun i => jd.getD i []) :=
        List.map_congr_left (fun i hi =>
          centerStep_not_mem (hsub _ (List.mem_cons_of_mem _ hrmem) i hi)
            (fun hil => hhead _ hrmem i hil hi))
      rw [hrows, centerStep_not_mem (hsub _ (List.mem_cons_of_mem _ hrmem) c hcmem) hcnl]
      rfl

theorem length_jackknifeJdataRaw (d : SurveyDesign) (stat : List ℚ → List ℚ) :
    (jackknifeJdataRaw d stat).length = d.nclust := by
  simp [jackknifeJdataRaw]

/-- C4: in the jackknife protocol without externally supplied replicate
weights and without mse mode, each cluster row of the replicate-statistic
matrix is centered by subtracting the columnwise mean of the rows of that
cluster's own stratum (not the global mean); in mse mode the global point
estimate is subtracted from every row instead. -/
theorem jackknife_centering_spec
    (strata cluster weights fpc : Option (List ℚ)) (cm : String) (nest : Bool)
    (d : SurveyDesign)
    (hd : mkDesign strata cluster weights none fpc cm nest = Except.ok d)
    (stat : List ℚ → List ℚ) (est : List ℚ) (c : Nat) (hc : c < d.nclust) :
    (jackknifeCenter d (jackknifeJdataRaw d stat) est false).getD c [] =
      List.zipWith (fun a b => a - b) ((jackknifeJdataRaw d stat).getD c [])
        (rowMean ((d.ii.getD (d.strat_for_clust.getD c 0) []).map
          (fun j => (jackknifeJdataRaw d stat).getD j []))) ∧
    (jackknifeCenter d (jackknifeJdataRaw d stat) est true).getD c [] =
      List.zipWith (fun a b => a - b) ((jackknifeJdataRaw d stat).getD c []) est := by
  obtain ⟨st, cl, w, f, hca, hne, hlen, hall, rfl⟩ := mkDesign_ok_elim hd
  have hc' : c < (sfcOf st cl nest).length := by rwa [bd_nclust_len] at hc
  have hjlen : (jackknifeJdataRaw (buildDesign st cl w f cm nest) stat).length
      = (sfcOf st cl nest).length := by
    rw [length_jackknifeJdataRaw, bd_nclust_len]
  constructor
  · have hcf : jackknifeCenter (buildDesign st cl w f cm nest)
        (jackknifeJdataRaw (buildDesign st cl w f cm nest) stat) est false
        = centerStrata (buildDesign st cl w f cm nest).ii
            (jackknifeJdataRaw (buildDesign st cl w f cm nest) stat) := rfl
    rw [hcf]
    have hdisj : (buildDesign st cl w f cm nest).ii.Pairwise (fun a b => ∀ x ∈ a, x ∉ b) := by
      rw [bd_ii]
      refine List.pairwise_map.mpr ?_
      refine (List.pairwise_lt_range _).imp ?_
      intro a b hab x hxa hxb
      rw [List.mem_filter] at hxa hxb
      have h1 := of_decide_eq_true hxa.2
      have h2 := of_decide_eq_true hxb.2
      omega
    have hsub : ∀ l ∈ (buildDesign st cl w f cm nest).ii, ∀ j ∈ l,
        j < (jackknifeJdataRaw (buildDesign st cl w f cm nest) stat).length := by
      rw [hjlen, bd_ii]
      intro l hl j hj
      rcases List.mem_map.mp hl with ⟨s, hs, rfl⟩
      exact List.mem_range.mp (List.mem_filter.mp hj).1
    have hk : (buildDesign st cl w f cm nest).strat_for_clust.getD c 0
        < (buildDesign st cl w f cm nest).ii.length := by
      rw [bd_sfc, bd_ii]
      simp only [List.length_map, List.length_range]
      exact sfcOf_getD_lt hlen hc'
    have hcmem : c ∈ (buildDesign st cl w f cm nest).ii.getD
        ((buildDesign st cl w f cm nest).strat_for_clust.getD c 0) [] :=
      mem_bd_ii.mpr ⟨sfcOf_getD_lt hlen hc', hc', rfl⟩
    exact centerStrata_spec hdisj hsub hk hcmem
  · have hct : jackknifeCenter (buildDesign st cl w f cm nest)
        (jackknifeJdataRaw (buildDesign st cl w f cm nest) stat) est true
        = (jackknifeJdataRaw (buildDesign st cl w f cm nest) stat).map
            (fun row => List.zipWith (fun a b => a - b) row est) := rfl
    rw [hct]
    exact getD_map _ _ [] (by rw [hjlen]; exact hc')

theorem jackknife_centering_witness :
    mkDesign (some [0,0,1,1]) (some [0,1,2,3]) (some [1,1,1,1]) none none "jack" true
      = Except.ok jackDesignEx ∧
    0 < jackDesignEx.nclust ∧
    ((jackknifeCenter jackDesignEx
        (jackknifeJdataRaw jackDesignEx (fun w2 => [w2.sum])) [9] false).getD 0 [] =
      List.zipWith (fun a b => a - b)
        ((jackknifeJdataRaw jackDesignEx (fun w2 => [w2.sum])).getD 0 [])
        (rowMean ((jackDesignEx.ii.getD (jackDesignEx.strat_for_clust.getD 0 0) []).map
          (fun j => (jackknifeJdataRaw jackDesignEx (fun w2 => [w2.sum])).getD j []))) ∧
     (jackknifeCenter jackDesignEx
        (jackknifeJdataRaw jackDesignEx (fun w2 => [w2.sum])) [9] true).getD 0 [] =
      List.zipWith (fun a b => a - b)
        ((jackknifeJdataRaw jackDesignEx (fun w2 => [w2.sum])).getD 0 []) [9]) :=
  ⟨rfl, by decide,
    jackknife_centering_spec (some [0,0,1,1]) (some [0,1,2,3]) (some [1,1,1,1]) none "jack" true
      jackDesignEx rfl (fun w2 => [w2.sum]) [9] 0 (by decide)⟩

/-- C10: SurveyMean and SurveyTotal accept a one-dimensional length-n data
array, reshape it to an n-by-1 matrix before estimation, and produce the
same est, vcov and stderr as when the caller supplies the equivalent
explicit n-by-1 column matrix (for any model `rt` of the square root). -/
theorem one_dim_data_reshape (rt : ℚ → ℚ) (d : SurveyDesign) (xs : List ℚ) (mse : Bool) :
    normalizeData (DataInput.one xs) = xs.map (fun x => [x]) ∧
    surveyMean rt d (DataInput.one xs) mse
      = surveyMean rt d (DataInput.two (xs.map (fun x => [x]))) mse ∧
    surveyTotal rt d (DataInput.one xs) mse
      = surveyTotal rt d (DataInput.two (xs.map (fun x => [x]))) mse :=
  ⟨rfl, rfl, rfl⟩

/-- C5 (code bug): the pseudo-value expression the source computes and then
discards.  At the design (strata `[0,0]`, clusters `[0,1]`, unit weights)
with data column `[1,3]` and the mean statistic, the point estimate is `2`
but the expression uses `np.dot(weights, data) = 4`, the weighted total,
and the centered replicate matrix `[[1],[-1]]`, producing `[[7],[9]]`,
which differs from `[[3],[5]]`, the value of the claimed formula
`jdata + nh*(point_estimate - jdata)` on the same centered matrix. -/
theorem jackknife_pseudo_discrepancy :
    surveyMeanStat pairDesignEx.weights [[1], [3]] = [2] ∧
    npDotVM pairDesignEx.weights [[1], [3]] = [4] ∧
    jackknifeCenter pairDesignEx
        (jackknifeJdataRaw pairDesignEx (fun w => surveyMeanStat w [[1], [3]]))
        [2] false = [[1], [-1]] ∧
    jackknifePseudo pairDesignEx [[1], [-1]] [[1], [3]] = [[7], [9]] ∧
    ([[7], [9]] : List (List ℚ)) ≠ [[3], [5]] := by
  refine ⟨?_, ?_, ?_, ?_, by decide⟩
  · norm_num [surveyMeanStat, npDotVM, pairDesignEx, List.range_succ]
  · norm_num [npDotVM, pairDesignEx, List.range_succ]
  · norm_num [jackknifeCenter, jackknifeJdataRaw, jackknife_rep_weights, pairDesignEx,
      centerStrata, centerStep, rowMean, surveyMeanStat, npDotVM, List.range_succ]
  · norm_num [jackknifePseudo, npDotVM, pairDesignEx, List.range_succ]

/-- C6 (code bug): calling the mean-bootstrap generator raises
AttributeError at its first statement (`self.design.nclust` on a
SurveyDesign, which has no attribute `design`), before any weight is
computed. -/
theorem mean_bootstrap_attribute_error :
    mean_bootstrap_weight meanBootDesignEx 1
      = Except.error "AttributeError: SurveyDesign object has no attribute design" := rfl

/-- C7 (code bug): constructing a SurveyQuantile with a valid level `0.5`
does not succeed: the bound check compares the unevaluated method object
`self.quantile.max` with `1` and raises TypeError, so `est`, `vcov` and
`stderr` are never set. -/
theorem survey_quantile_init_type_error :
    surveyQuantileInitCheck [1/2] =
      Except.error "TypeError: unsupported comparison between method and int" := by
  norm_num [surveyQuantileInitCheck, listMinQ]

/-- C8 (code bug): a level above 1 raises TypeError (from the
method-to-int comparison), not the intended ValueError, and a negative
level raises the intended ValueError via the left operand of `or`. -/
theorem survey_quantile_bounds_check_bug :
    surveyQuantileInitCheck [3/2] =
      Except.error "TypeError: unsupported comparison between method and int" ∧
    surveyQuantileInitCheck [-1/2] =
      Except.error "ValueError: quantile should be within 0 and 1" := by
  constructor <;> norm_num [surveyQuantileInitCheck, listMinQ]

/-- The entry of `SurveyQuantile._stat` at level index `i`: the selection
body applied to the found position and the target cumulative weight. -/
theorem quantileStat_getD {n_cw : Nat} {qs ws xs : List ℚ} {i : Nat} (hi : i < qs.length) :
    (quantileStat n_cw qs ws xs).getD i 0 =
      quantileOne n_cw (npCumsum ws) (npSort xs)
        (searchsorted (npCumsum ws)
          (qs.getD i 0 * (npCumsum ws).getD ((npCumsum ws).length - 1) 0))
        (qs.getD i 0 * (npCumsum ws).getD ((npCumsum ws).length - 1) 0) := by
  simp only [quantileStat]
  have hq : (qs.map (fun lvl =>
      lvl * (npCumsum ws).getD ((npCumsum ws).length - 1) 0)).length = qs.length := by
    simp
  have hind : ((qs.map (fun lvl =>
      lvl * (npCumsum ws).getD ((npCumsum ws).length - 1) 0)).map
        (fun t => searchsorted (npCumsum ws) t)).length = qs.length := by
    simp
  have hzip : i < (((qs.map (fun lvl =>
      lvl * (npCumsum ws).getD ((npCumsum ws).length - 1) 0)).map
        (fun t => searchsorted (npCumsum ws) t)).zip
        (qs.map (fun lvl =>
          lvl * (npCumsum ws).getD ((npCumsum ws).length - 1) 0))).length := by
    rw [List.length_zip, hind, hq]
    exact lt_min hi hi
  rw [getD_map _ _ ((0 : Nat), (0 : ℚ)) hzip]
  congr 1
  · rw [List.getD_eq_getElem _ _ hzip, List.getElem_zip]
    simp only [List.getElem_map]
    rw [List.getD_eq_getElem _ _ hi]
  · rw [List.getD_eq_getElem _ _ hzip, List.getElem_zip]
    simp only [List.getElem_map]
    rw [List.getD_eq_getElem _ _ hi]

/-- C9: when the target cumulative weight exactly equals the cumulative
weight at the found position (a tie) and the position is neither the last
nor one-past-last observation, the weighted quantile is the average of the
sorted value at that position and the next one; without a tie (position
not at the end) it is the sorted value at that position. -/
theorem quantile_tie_spec (n_cw : Nat) (qs ws xs : List ℚ) (i : Nat) (hi : i < qs.length)
    (hp1 : searchsorted (npCumsum ws)
        (qs.getD i 0 * (npCumsum ws).getD ((npCumsum ws).length - 1) 0) ≠ n_cw - 1)
    (hp2 : searchsorted (npCumsum ws)
        (qs.getD i 0 * (npCumsum ws).getD ((npCumsum ws).length - 1) 0) ≠ n_cw) :
    ((npCumsum ws).getD (searchsorted (npCumsum ws)
          (qs.getD i 0 * (npCumsum ws).getD ((npCumsum ws).length - 1) 0)) 0 =
        qs.getD i 0 * (npCumsum ws).getD ((npCumsum ws).length - 1) 0 →
      (quantileStat n_cw qs ws xs).getD i 0 =
        ((npSort xs).getD (searchsorted (npCumsum ws)
            (qs.getD i 0 * (npCumsum ws).getD ((npCumsum ws).length - 1) 0)) 0 +
          (npSort xs).getD (searchsorted (npCumsum ws)
            (qs.getD i 0 * (npCumsum ws).getD ((npCumsum ws).length - 1) 0) + 1) 0) / 2) ∧
    ((npCumsum ws).getD (searchsorted (npCumsum ws)
          (qs.getD i 0 * (npCumsum ws).getD ((npCumsum ws).length - 1) 0)) 0 ≠
        qs.getD i 0 * (npCumsum ws).getD ((npCumsum ws).length - 1) 0 →
      (quantileStat n_cw qs ws xs).getD i 0 =
        (npSort xs).getD (searchsorted (npCumsum ws)
          (qs.getD i 0 * (npCumsum ws).getD ((npCumsum ws).length - 1) 0)) 0) := by
  rw [quantileStat_getD hi]
  unfold quantileOne
  rw [if_neg (not_or.mpr ⟨hp1, hp2⟩)]
  constructor
  · intro htie
    rw [if_pos htie]
  · intro htie
    rw [if_neg htie]

theorem quantile_tie_witness :
    (0 : Nat) < ([(1 : ℚ)/2]).length ∧
    searchsorted (npCumsum [1, 1, 1, 1])
      (([(1 : ℚ)/2]).getD 0 0 *
        (npCumsum [1, 1, 1, 1]).getD ((npCumsum [1, 1, 1, 1]).length - 1) 0) = 1 ∧
    (npCumsum [1, 1, 1, 1]).getD 1 0 = 2 ∧
    npSort [3, 1, 4, 2] = [1, 2, 3, 4] ∧
    (quantileStat 4 [(1 : ℚ)/2] [1, 1, 1, 1] [3, 1, 4, 2]).getD 0 0 =
      ((npSort [3, 1, 4, 2]).getD (searchsorted (npCumsum [1, 1, 1, 1])
          (([(1 : ℚ)/2]).getD 0 0 *
            (npCumsum [1, 1, 1, 1]).getD ((npCumsum [1, 1, 1, 1]).length - 1) 0)) 0 +
        (npSort [3, 1, 4, 2]).getD (searchsorted (npCumsum [1, 1, 1, 1])
          (([(1 : ℚ)/2]).getD 0 0 *
            (npCumsum [1, 1, 1, 1]).getD ((npCumsum [1, 1, 1, 1]).length - 1) 0) + 1) 0) / 2 ∧
    (quantileStat 4 [(1 : ℚ)/2] [1, 1, 1, 1] [3, 1, 4, 2]).getD 0 0 = 5/2 := by
  have hs : searchsorted (npCumsum [1, 1, 1, 1])
      (([(1 : ℚ)/2]).getD 0 0 *
        (npCumsum [1, 1, 1, 1]).getD ((npCumsum [1, 1, 1, 1]).length - 1) 0) = 1 := by
    norm_num [searchsorted, npCumsum, List.scanl]
  refine ⟨by norm_num, hs, ?_, ?_, ?_, ?_⟩
  · norm_num [npCumsum, List.scanl]
  · norm_num [npSort, insertLe]
  · refine (quantile_tie_spec 4 [(1 : ℚ)/2] [1, 1, 1, 1] [3, 1, 4, 2] 0 (by norm_num)
      (by rw [hs]; norm_num) (by rw [hs]; norm_num)).1 ?_
    rw [hs]
    norm_num [npCumsum, List.scanl]
  · rw [hs] at *
    norm_num [quantileStat, quantileOne, npCumsum, npSort, insertLe, searchsorted, List.scanl]

theorem check_args_ok_eq {strata cluster weights fpc : Option (List ℚ)}
    (h1 : ¬(strata = none ∧ cluster = none ∧ weights = none))
    (h2 : ¬((presentLens strata cluster weights).dedup.length ≠ 1)) :
    check_args strata cluster weights fpc = Except.ok
      (strata.getD (List.replicate (commonLen strata cluster weights) 1),
       cluster.getD (List.replicate (commonLen strata cluster weights) 1),
       weights.getD (List.replicate (commonLen strata cluster weights) 1),
       fpc.getD (List.replicate (commonLen strata cluster weights) 0)) := by
  unfold check_args
  rw [if_neg h1, if_neg h2]

theorem check_args_fail_iff {strata cluster weights fpc : Option (List ℚ)} :
    exceptOk (check_args strata cluster weights fpc) = false ↔
      (strata = none ∧ cluster = none ∧ weights = none) ∨
        (presentLens strata cluster weights).dedup.length ≠ 1 := by
  unfold check_args
  split
  · next h => simp [exceptOk, h]
  · next h =>
    split
    · next h2 => simp [exceptOk, h2]
    · next h2 => simp [exceptOk, h, h2]

theorem npInverse_isEmpty {st : List ℚ} : (npInverse st).isEmpty = true ↔ st.length = 0 := by
  cases st <;> simp [npInverse]

theorem iiIdx_all_lt {st cl : List ℚ} {nest : Bool} (hlen : st.length = cl.length)
    {m : Nat} (hm : st.length ≤ m) :
    ((iiIdxOf st cl nest).all (fun i => decide (i < m))) = true := by
  rw [List.all_eq_true]
  intro i hi
  exact decide_eq_true (lt_of_lt_of_le (mem_iiIdxOf_lt hlen hi) hm)

theorem defaulted_lengths {strata cluster weights : Option (List ℚ)}
    (h2 : (presentLens strata cluster weights).dedup.length = 1) :
    (strata.getD (List.replicate (commonLen strata cluster weights) (1 : ℚ))).length
      = commonLen strata cluster weights ∧
    (cluster.getD (List.replicate (commonLen strata cluster weights) (1 : ℚ))).length
      = commonLen strata cluster weights ∧
    (weights.getD (List.replicate (commonLen strata cluster weights) (1 : ℚ))).length
      = commonLen strata cluster weights := by
  have heq : ∀ a ∈ presentLens strata cluster weights, a = commonLen strata cluster weights :=
    fun a ha => dedup_length_one h2 a ha
  refine ⟨?_, ?_, ?_⟩
  · cases hs : strata with
    | none => simp
    | some s =>
      have : s.length ∈ presentLens strata cluster weights := by
        refine List.mem_map.mpr ⟨s, ?_, rfl⟩
        refine List.mem_filterMap.mpr ⟨some s, ?_, rfl⟩
        simp [hs]
      simp [hs, heq _ this]
  · cases hs : cluster with
    | none => simp
    | some s =>
      have : s.length ∈ presentLens strata cluster weights := by
        refine List.mem_map.mpr ⟨s, ?_, rfl⟩
        refine List.mem_filterMap.mpr ⟨some s, ?_, rfl⟩
        simp [hs]
      simp [hs, heq _ this]
  · cases hs : weights with
    | none => simp
    | some s =>
      have : s.length ∈ presentLens strata cluster weights := by
        refine List.mem_map.mpr ⟨s, ?_, rfl⟩
        refine List.mem_filterMap.mpr ⟨some s, ?_, rfl⟩
        simp [hs]
      simp [hs, heq _ this]


/-- The error condition of the amended C3, written after the words of the
spec (with the two extra cases the code forces: an empty common length, and
a supplied fpc lacking an entry at some cluster first-occurrence index), to
be compared against the behaviour of `mkDesign`. -/
def mkDesignErrorSpec (strata cluster weights : Option (List ℚ))
    (rep_weights : Option (List (List ℚ))) (fpc : Option (List ℚ))
    (cm : String) (nest : Bool) : Prop :=
  cm ∉ (["boot", "mean_boot", "jack"] : List String) ∨
  (rep_weights.isSome = true ∧ (strata.isSome = true ∨ cluster.isSome = true)) ∨
  (rep_weights = none ∧ strata = none ∧ cluster = none ∧ weights = none) ∨
  (rep_weights = none ∧ (presentLens strata cluster weights).dedup.length ≠ 1) ∨
  (rep_weights = none ∧ commonLen strata cluster weights = 0) ∨
  (rep_weights = none ∧ fpc.isSome = true ∧
    ((iiIdxOf (strata.getD (List.replicate (commonLen strata cluster weights) 1))
        (cluster.getD (List.replicate (commonLen strata cluster weights) 1)) nest).all
      (fun i => decide (i < (fpc.getD []).length))) = false)

/-- C3 (amended): construction fails exactly when the method is not
recognized, rep_weights is supplied together with strata or cluster, all of
strata/cluster/weights are absent, the supplied arrays have unequal
lengths, the common length is zero, or a supplied fpc lacks an entry at
some cluster first-occurrence index; otherwise it succeeds, with absent
fields among strata/cluster/weights replaced by ones of the common length
and an absent fpc by zeros. -/
theorem mkDesign_error_spec (strata cluster weights : Option (List ℚ))
    (rep_weights : Option (List (List ℚ))) (fpc : Option (List ℚ))
    (cm : String) (nest : Bool) :
    (exceptOk (mkDesign strata cluster weights rep_weights fpc cm nest) = false ↔
      mkDesignErrorSpec strata cluster weights rep_weights fpc cm nest) ∧
    (∀ rws, rep_weights = some rws →
      ¬ mkDesignErrorSpec strata cluster weights rep_weights fpc cm nest →
      mkDesign strata cluster weights rep_weights fpc cm nest =
        Except.ok { cov_method := cm, rep_weights := some rws,
                    weights := weights.getD (List.replicate rws.length 1) }) ∧
    (rep_weights = none →
      ¬ mkDesignErrorSpec strata cluster weights rep_weights fpc cm nest →
      mkDesign strata cluster weights rep_weights fpc cm nest =
        Except.ok (buildDesign
          (strata.getD (List.replicate (commonLen strata cluster weights) 1))
          (cluster.getD (List.replicate (commonLen strata cluster weights) 1))
          (weights.getD (List.replicate (commonLen strata cluster weights) 1))
          (fpc.getD (List.replicate (commonLen strata cluster weights) 0)) cm nest)) := by
  by_cases hcm : cm ∈ (["boot", "mean_boot", "jack"] : List String)
  · cases rep_weights with
    | some rws =>
      have hmk : mkDesign strata cluster weights (some rws) fpc cm nest =
          if strata.isSome ∨ cluster.isSome then
            Except.error "If providing rep_weights, do not provide cluster or strata"
          else Except.ok { cov_method := cm, rep_weights := some rws,
                           weights := weights.getD (List.replicate rws.length 1) } := by
        unfold mkDesign
        rw [if_neg (not_not_intro hcm)]
      by_cases hsc : strata.isSome ∨ cluster.isSome
      · rw [hmk, if_pos hsc]
        refine ⟨?_, ?_, ?_⟩
        · simp only [exceptOk, true_iff]
          exact Or.inr (Or.inl ⟨rfl, by simpa using hsc⟩)
        · intro rws2 _ hne
          exact absurd (Or.inr (Or.inl ⟨rfl, by simpa using hsc⟩)) hne
        · intro hno
          cases hno
      · rw [hmk, if_neg hsc]
        refine ⟨?_, ?_, ?_⟩
        · refine iff_of_false (by simp [exceptOk]) ?_
          simp only [mkDesignErrorSpec]
          rintro (h | ⟨h1, h2⟩ | ⟨h, -⟩ | ⟨h, -⟩ | ⟨h, -⟩ | ⟨h, -⟩)
          · exact h hcm
          · exact hsc h2
          · cases h
          · cases h
          · cases h
          · cases h
        · intro rws2 hrw hne
          injection hrw with hrw2
          subst hrw2
          rfl
        · intro hno
          cases hno
    | none =>
      rw [mkDesign_none_eq hcm]
      by_cases hca1 : strata = none ∧ cluster = none ∧ weights = none
      · have hca : check_args strata cluster weights fpc =
            Except.error
              "At least one of strata, cluster, rep_weights, and weights musts not be None" := by
          unfold check_args
          rw [if_pos hca1]
        rw [hca, except_bind_err]
        refine ⟨?_, ?_, ?_⟩
        · simp only [exceptOk, true_iff]
          exact Or.inr (Or.inr (Or.inl ⟨rfl, hca1.1, hca1.2.1, hca1.2.2⟩))
        · intro rws2 hrw
          cases hrw
        · intro _ hne
          exact absurd (Or.inr (Or.inr (Or.inl ⟨rfl, hca1.1, hca1.2.1, hca1.2.2⟩))) hne
      · by_cases hca2 : (presentLens strata cluster weights).dedup.length ≠ 1
        · have hca : check_args strata cluster weights fpc =
              Except.error "lengths of strata, cluster, and weights are not compatible" := by
            unfold check_args
            rw [if_neg hca1, if_pos hca2]
          rw [hca, except_bind_err]
          refine ⟨?_, ?_, ?_⟩
          · simp only [exceptOk, true_iff]
            exact Or.inr (Or.inr (Or.inr (Or.inl ⟨rfl, hca2⟩)))
          · intro rws2 hrw
            cases hrw
          · intro _ hne
            exact absurd (Or.inr (Or.inr (Or.inr (Or.inl ⟨rfl, hca2⟩)))) hne
        · have h2x : (presentLens strata cluster weights).dedup.length = 1 := not_not.mp hca2
          obtain ⟨hstl, hcll, hwl⟩ := defaulted_lengths h2x
          have hlen2 : (strata.getD (List.replicate (commonLen strata cluster weights) (1 : ℚ))).length
              = (cluster.getD (List.replicate (commonLen strata cluster weights) (1 : ℚ))).length := by
            rw [hstl, hcll]
          have hfull : (check_args strata cluster weights fpc >>= fun q =>
              mkDesignPost q.1 q.2.1 q.2.2.1 q.2.2.2 cm nest) =
              mkDesignPost
                (strata.getD (List.replicate (commonLen strata cluster weights) 1))
                (cluster.getD (List.replicate (commonLen strata cluster weights) 1))
                (weights.getD (List.replicate (commonLen strata cluster weights) 1))
                (fpc.getD (List.replicate (commonLen strata cluster weights) 0)) cm nest := by
            rw [@check_args_ok_eq strata cluster weights fpc hca1 hca2]
            rfl
          rw [hfull]
          by_cases hn : commonLen strata cluster weights = 0
          · have hempty : (npInverse (strata.getD
                (List.replicate (commonLen strata cluster weights) (1 : ℚ)))).isEmpty = true :=
              npInverse_isEmpty.mpr (by rw [hstl, hn])
            have hpost : mkDesignPost
                (strata.getD (List.replicate (commonLen strata cluster weights) 1))
                (cluster.getD (List.replicate (commonLen strata cluster weights) 1))
                (weights.getD (List.replicate (commonLen strata cluster weights) 1))
                (fpc.getD (List.replicate (commonLen strata cluster weights) 0)) cm nest
                = Except.error "ValueError: max arg is an empty sequence" := by
              unfold mkDesignPost
              rw [if_pos hempty]
            rw [hpost]
            refine ⟨?_, ?_, ?_⟩
            · simp only [exceptOk, true_iff]
              exact Or.inr (Or.inr (Or.inr (Or.inr (Or.inl ⟨rfl, hn⟩))))
            · intro rws2 hrw
              cases hrw
            · intro _ hne
              exact absurd (Or.inr (Or.inr (Or.inr (Or.inr (Or.inl ⟨rfl, hn⟩))))) hne
          · have hnotempty : ¬((npInverse (strata.getD
                (List.replicate (commonLen strata cluster weights) (1 : ℚ)))).isEmpty = true) := by
              rw [npInverse_isEmpty, hstl]
              exact hn
            cases hfp : fpc with
            | none =>
              have hpost : mkDesignPost
                  (strata.getD (List.replicate (commonLen strata cluster weights) 1))
                  (cluster.getD (List.replicate (commonLen strata cluster weights) 1))
                  (weights.getD (List.replicate (commonLen strata cluster weights) 1))
                  ((none : Option (List ℚ)).getD
                    (List.replicate (commonLen strata cluster weights) 0)) cm nest
                  = Except.ok (buildDesign
                      (strata.getD (List.replicate (commonLen strata cluster weights) 1))
                      (cluster.getD (List.replicate (commonLen strata cluster weights) 1))
                      (weights.getD (List.replicate (commonLen strata cluster weights) 1))
                      ((none : Option (List ℚ)).getD
                        (List.replicate (commonLen strata cluster weights) 0)) cm nest) := by
                unfold mkDesignPost
                rw [if_neg hnotempty, if_neg (by
                  simp
                  intro x hx
                  rw [← hstl]
                  exact mem_iiIdxOf_lt hlen2 hx)]
              rw [hpost]
              refine ⟨?_, ?_, ?_⟩
              · refine iff_of_false (by simp [exceptOk]) ?_
                rintro (h | ⟨h1, -⟩ | ⟨-, h3⟩ | ⟨-, h4⟩ | ⟨-, h5⟩ | ⟨-, h6, -⟩)
                · exact h hcm
                · simp at h1
                · exact hca1 h3
                · exact hca2 h4
                · exact hn h5
                · simp at h6
              · intro rws2 hrw
                cases hrw
              · intro _ _
                rfl
            | some fl =>
              by_cases hallF : ((iiIdxOf
                  (strata.getD (List.replicate (commonLen strata cluster weights) 1))
                  (cluster.getD (List.replicate (commonLen strata cluster weights) 1)) nest).all
                    (fun i => decide (i < fl.length))) = false
              · have hpost : mkDesignPost
                    (strata.getD (List.replicate (commonLen strata cluster weights) 1))
                    (cluster.getD (List.replicate (commonLen strata cluster weights) 1))
                    (weights.getD (List.replicate (commonLen strata cluster weights) 1))
                    ((some fl).getD (List.replicate (commonLen strata cluster weights) 0)) cm nest
                    = Except.error "IndexError: fpc index out of bounds" := by
                  unfold mkDesignPost
                  rw [if_neg hnotempty]
                  rw [show ((some fl).getD (List.replicate (commonLen strata cluster weights) (0:ℚ))) = fl from rfl]
                  rw [if_pos hallF]
                rw [hpost]
                have hE : mkDesignErrorSpec strata cluster weights none (some fl) cm nest := by
                  refine Or.inr (Or.inr (Or.inr (Or.inr (Or.inr ⟨rfl, rfl, ?_⟩))))
                  simpa using hallF
                refine ⟨?_, ?_, ?_⟩
                · simp only [exceptOk, true_iff]
                  exact hE
                · intro rws2 hrw
                  cases hrw
                · intro _ hne
                  exact absurd hE hne
              · have hpost : mkDesignPost
                    (strata.getD (List.replicate (commonLen strata cluster weights) 1))
                    (cluster.getD (List.replicate (commonLen strata cluster weights) 1))
                    (weights.getD (List.replicate (commonLen strata cluster weights) 1))
                    ((some fl).getD (List.replicate (commonLen strata cluster weights) 0)) cm nest
                    = Except.ok (buildDesign
                        (strata.getD (List.replicate (commonLen strata cluster weights) 1))
                        (cluster.getD (List.replicate (commonLen strata cluster weights) 1))
                        (weights.getD (List.replicate (commonLen strata cluster weights) 1))
                        ((some fl).getD (List.replicate (commonLen strata cluster weights) 0))
                        cm nest) := by
                  unfold mkDesignPost
                  rw [if_neg hnotempty]
                  rw [show ((some fl).getD (List.replicate (commonLen strata cluster weights) (0:ℚ))) = fl from rfl]
                  rw [if_neg hallF]
                rw [hpost]
                refine ⟨?_, ?_, ?_⟩
                · refine iff_of_false (by simp [exceptOk]) ?_
                  rintro (h | ⟨h1, -⟩ | ⟨-, h3⟩ | ⟨-, h4⟩ | ⟨-, h5⟩ | ⟨-, -, h6⟩)
                  · exact h hcm
                  · simp at h1
                  · exact hca1 h3
                  · exact hca2 h4
                  · exact hn h5
                  · exact hallF (by simpa using h6)
                · intro rws2 hrw
                  cases hrw
                · intro _ _
                  rfl
  · have hmk : mkDesign strata cluster weights rep_weights fpc cm nest =
        Except.error "Method not supported" := by
      unfold mkDesign
      rw [if_pos hcm]
    rw [hmk]
    refine ⟨?_, ?_, ?_⟩
    · simp only [exceptOk, true_iff]
      exact Or.inl hcm
    · intro rws2 _ hne
      exact absurd (Or.inl hcm) hne
    · intro _ hne
      exact absurd (Or.inl hcm) hne

/-- C3 counterexample: with strata supplied as the empty array (cluster,
weights, rep_weights and fpc absent, method jack) none of the four error
conditions of the claim holds -- the method is recognized, rep_weights is
absent, not all of strata/cluster/weights are absent, and the single
supplied array makes the lengths trivially compatible -- yet construction
fails: Python raises ValueError at `max(self.strat)` over the empty
relabeled array, so the claim, which promises success here, is false. -/
theorem mkDesign_empty_counterexample :
    exceptOk (mkDesign (some ([] : List ℚ)) none none none none "jack" true) = false ∧
    "jack" ∈ (["boot", "mean_boot", "jack"] : List String) ∧
    ¬((none : Option (List (List ℚ))).isSome = true) ∧
    ¬(some ([] : List ℚ) = none ∧ (none : Option (List ℚ)) = none ∧
        (none : Option (List ℚ)) = none) ∧
    (presentLens (some ([] : List ℚ)) none none).dedup.length = 1 :=
  ⟨rfl, by decide, by decide, by simp, by decide⟩

theorem mkDesign_error_spec_witness :
    ¬ mkDesignErrorSpec (some [0, 0, 1, 1]) (some [0, 1, 2, 3]) none none none "jack" true ∧
    mkDesign (some [0, 0, 1, 1]) (some [0, 1, 2, 3]) none none none "jack" true =
      Except.ok (buildDesign
        ((some ([0, 0, 1, 1] : List ℚ)).getD
          (List.replicate (commonLen (some [0, 0, 1, 1]) (some [0, 1, 2, 3]) none) 1))
        ((some ([0, 1, 2, 3] : List ℚ)).getD
          (List.replicate (commonLen (some [0, 0, 1, 1]) (some [0, 1, 2, 3]) none) 1))
        ((none : Option (List ℚ)).getD
          (List.replicate (commonLen (some [0, 0, 1, 1]) (some [0, 1, 2, 3]) none) 1))
        ((none : Option (List ℚ)).getD
          (List.replicate (commonLen (some [0, 0, 1, 1]) (some [0, 1, 2, 3]) none) 0))
        "jack" true) :=
  have hne : ¬ mkDesignErrorSpec (some [0, 0, 1, 1]) (some [0, 1, 2, 3]) none none none
      "jack" true := by
    unfold mkDesignErrorSpec
    decide
  ⟨hne, (mkDesign_error_spec (some [0, 0, 1, 1]) (some [0, 1, 2, 3]) none none none
    "jack" true).2.2 rfl hne⟩
